import Mathlib

/-!
Shallow embedding of the analysis pipeline in `src/app.py` (a Streamlit
script over a pandas table with columns mouse_id / day / group / volume).

Numbers (day, volume) are modelled as rationals.  The script's floating
point arithmetic on the concrete inputs used below is exact, with one
exception that is called out where it matters: NumPy division by zero
yields `inf`/`nan` rather than raising, while rational division by zero
in Lean yields `0`; the theorems about that code path therefore speak
about the *shape* of the outcome (which branch runs), not the quotient.

Randomness (`np.random.choice`) is modelled by passing in the drawn index
lists explicitly: one `Draw` per bootstrap iteration.
-/

/-- One record of the measurement table (`app.py` requires exactly the
columns mouse_id, day, group, volume; rows with non-numeric day or volume
are dropped before any stage runs, so fields are total here). -/
structure Row where
  mouse_id : String
  day : ℚ
  group : String
  volume : ℚ
  deriving DecidableEq

/-- Mean of a list of rationals, `xs.sum / len(xs)` (pandas `.mean()`).
Only ever applied to nonempty lists by the pipeline. -/
def meanQ (xs : List ℚ) : ℚ := xs.sum / (xs.length : ℚ)

/-- Volumes of the rows of one group, in table order
(`day_df[day_df["group"] == g]["volume"]`). -/
def groupVolumes (tbl : List Row) (g : String) : List ℚ :=
  (tbl.filter (fun r => decide (r.group = g))).map (fun r => r.volume)

/-- The set of group labels present in a table (`df["group"].unique()`).
`List.dedup` keeps a different occurrence order than pandas, but every
use below is membership or is compared under the same construction on
both sides, so the order is immaterial. -/
def groupsOf (tbl : List Row) : List String :=
  (tbl.map (fun r => r.group)).dedup

/-- `mean_by_group.get(g, None)`: the group's mean volume, or `none` when
the group has no row in the table. -/
def groupMean (tbl : List Row) (g : String) : Option ℚ :=
  if g ∈ groupsOf tbl then some (meanQ (groupVolumes tbl g)) else none

/-- Insert a row into a day-ascending list, before any row of equal day. -/
def insertByDay (r : Row) : List Row → List Row
  | [] => [r]
  | x :: xs => if r.day ≤ x.day then r :: x :: xs else x :: insertByDay r xs

/-- Sort rows ascending by day (`g.sort_values("day")`).  pandas leaves
the order of equal-day rows unspecified; the embedding fixes the stable
order.  No claim below depends on the tie order. -/
def sortByDay : List Row → List Row
  | [] => []
  | r :: rs => insertByDay r (sortByDay rs)

/-- One subject's day-sorted timeline: the script groups the *whole*
filtered table by `mouse_id` alone (line 157), so rows from every group
are pooled. -/
def timeline (tbl : List Row) (m : String) : List Row :=
  sortByDay (tbl.filter (fun r => decide (r.mouse_id = m)))

/-- The distinct subject ids of a table (`groupby("mouse_id")` iterates
each id once; iteration order only permutes `target_days`, and the stage
output is its minimum, so first-occurrence order is used). -/
def subjects (tbl : List Row) : List String :=
  (tbl.map (fun r => r.mouse_id)).dedup

/-- Position of the first row with volume ≥ T in a timeline
(`reached.idxmax()` + `index.get_loc`, guarded by `reached.any()`). -/
def firstReachedIdx (T : ℚ) : List Row → Option ℕ
  | [] => none
  | r :: rs =>
    if T ≤ r.volume then some 0
    else (firstReachedIdx T rs).map (fun i => i + 1)

/-- A subject's candidate day: the day of the row immediately preceding
its first crossing, provided the crossing is not at position 0
(lines 162-172 of `app.py`). -/
def candidateDay (T : ℚ) (tl : List Row) : Option ℚ :=
  match firstReachedIdx T tl with
  | none => none
  | some 0 => none
  | some (p + 1) => (tl[p]?).map (fun r => r.day)

/-- The `target_days` list built by the per-subject loop. -/
def targetDays (tbl : List Row) (T : ℚ) : List ℚ :=
  (subjects tbl).foldl
    (fun acc m =>
      match candidateDay T (timeline tbl m) with
      | some d => acc ++ [d]
      | none => acc)
    []

/-- Python `min(l)` for a possibly-empty list. -/
def minQ : List ℚ → Option ℚ
  | [] => none
  | x :: xs =>
    match minQ xs with
    | none => some x
    | some y => some (min x y)

/-- `earliest_day = min(target_days)` when any candidate exists. -/
def earliestDay (tbl : List Row) (T : ℚ) : Option ℚ :=
  minQ (targetDays tbl T)

/-- What the endpoint section prints: the no-data info (line 155), the
comparison-day markdown (line 178), or the single "no individual reached
the threshold" info (line 237). -/
inductive EndpointSignal where
  | noData : EndpointSignal
  | found : ℚ → EndpointSignal
  | noReach : EndpointSignal
  deriving DecidableEq

def endpointSignal (filtered : List Row) (T : ℚ) : EndpointSignal :=
  if filtered = [] then EndpointSignal.noData
  else
    match earliestDay filtered T with
    | some d => EndpointSignal.found d
    | none => EndpointSignal.noReach

/-- The script variable `day_df`: assigned (line 183) only on the branch
where a comparison day exists; on every other path through the endpoint
section it is never assigned, modelled as `none`. -/
def dayDf (filtered : List Row) (T : ℚ) : Option (List Row) :=
  if filtered = [] then none
  else
    match earliestDay filtered T with
    | some d => some (filtered.filter (fun r => decide (r.day = d)))
    | none => none

/-- Outcome of the TGI section (lines 186-203). -/
inductive TgiOut where
  | missingControl : TgiOut
  | degenerateControl : TgiOut
  | tgiMap : List (String × ℚ) → TgiOut
  deriving DecidableEq

/-- Lines 186-203: the control-presence check, the `mean_control <= 0`
check, and the dict comprehension building `tgi_by_group`. -/
def tgiStage (ddf : List Row) (control : String) : TgiOut :=
  if control ∉ groupsOf ddf then TgiOut.missingControl
  else
    let mc := meanQ (groupVolumes ddf control)
    if mc ≤ 0 then TgiOut.degenerateControl
    else
      TgiOut.tgiMap
        ((groupsOf ddf).map
          (fun g => (g, (1 - meanQ (groupVolumes ddf g) / mc) * 100)))

/-- Lines 211-221: the Bliss section.  Returns the expected TGI
percentage when both drug labels are in `tgi_by_group`, `none` when the
membership test fails (the script then prints the insufficient-data
info instead). -/
def blissStage (tgi : List (String × ℚ)) (a b : String) : Option ℚ :=
  match tgi.lookup a, tgi.lookup b with
  | some tA, some tB =>
    some ((tA / 100 + tB / 100 - (tA / 100) * (tB / 100)) * 100)
  | _, _ => none

/-- The fixed ordered candidate list of the combo-group probe
(line 250). -/
def comboAliases : List String := ["Combo", "A+B", "DrugAB", "AB"]

/-- Lines 249-253: take the first alias present among the day's group
labels. -/
def comboDetect (ddf : List Row) : Option String :=
  comboAliases.find? (fun c => decide (c ∈ groupsOf ddf))

/-- The index lists drawn by `np.random.choice` in one bootstrap
iteration, one list per group array. -/
structure Draw where
  ctrlIdx : List ℕ
  aIdx : List ℕ
  bIdx : List ℕ
  comboIdx : List ℕ
  deriving DecidableEq

/-- Resampling a volume array at the drawn indices. -/
def resample (arr : List ℚ) (idx : List ℕ) : List ℚ :=
  idx.map (fun i => arr.getD i 0)

/-- One iteration of the bootstrap loop body (lines 314-336): means of
the four resamples, fractional TGIs, Bliss effect, and the guarded
append. -/
def bootAppend (vCtrl vA vB vCombo : List ℚ) (acc : List ℚ) (d : Draw) :
    List ℚ :=
  let mCtrl := meanQ (resample vCtrl d.ctrlIdx)
  let mA := meanQ (resample vA d.aIdx)
  let mB := meanQ (resample vB d.bIdx)
  let mCombo := meanQ (resample vCombo d.comboIdx)
  let tA := 1 - mA / mCtrl
  let tB := 1 - mB / mCtrl
  let tC := 1 - mCombo / mCtrl
  let eBliss := tA + tB - tA * tB
  if 0 < tC then acc ++ [eBliss / tC] else acc

/-- The whole loop accumulating `CI_list`. -/
def bootLoop (vCtrl vA vB vCombo : List ℚ) (draws : List Draw) : List ℚ :=
  draws.foldl (bootAppend vCtrl vA vB vCombo) []

/-- The value a single iteration retains, if any: spec-side form of the
loop body used to state what `bootLoop` collects. -/
def iterationCI (vCtrl vA vB vCombo : List ℚ) (d : Draw) : Option ℚ :=
  let mCtrl := meanQ (resample vCtrl d.ctrlIdx)
  let mA := meanQ (resample vA d.aIdx)
  let mB := meanQ (resample vB d.bIdx)
  let mCombo := meanQ (resample vCombo d.comboIdx)
  let tA := 1 - mA / mCtrl
  let tB := 1 - mB / mCtrl
  let tC := 1 - mCombo / mCtrl
  let eBliss := tA + tB - tA * tB
  if 0 < tC then some (eBliss / tC) else none

/-- Insert into an ascending list of rationals. -/
def insertAsc (x : ℚ) : List ℚ → List ℚ
  | [] => [x]
  | y :: ys => if x ≤ y then x :: y :: ys else y :: insertAsc x ys

/-- Ascending sort, used by the percentile computation. -/
def sortAsc : List ℚ → List ℚ
  | [] => []
  | x :: xs => insertAsc x (sortAsc xs)

/-- `np.percentile(xs, q)` with the default linear interpolation:
virtual index h = q/100 * (n-1), interpolate between the floor and
ceiling positions of the sorted data. -/
def percentileQ (xs : List ℚ) (q : ℚ) : ℚ :=
  let s := sortAsc xs
  if s.length = 0 then 0
  else
    let h : ℚ := q / 100 * ((s.length : ℚ) - 1)
    let lo : ℕ := (Int.floor h).toNat
    let hi : ℕ := (Int.ceil h).toNat
    let a := s.getD lo 0
    let b := s.getD hi 0
    a + (h - (lo : ℚ)) * (b - a)

/-- Outcome of the bootstrap report (lines 338-348). -/
inductive BootOut where
  | interval : ℚ → ℚ → BootOut
  | insufficient : BootOut
  deriving DecidableEq

/-- `if len(CI_list) > 10:` report the 2.5/97.5 percentiles, else the
insufficient-data info. -/
def bootSection (vCtrl vA vB vCombo : List ℚ) (draws : List Draw) :
    BootOut :=
  let l := bootLoop vCtrl vA vB vCombo draws
  if 10 < l.length then
    BootOut.interval (percentileQ l (5 / 2)) (percentileQ l (195 / 2))
  else BootOut.insufficient

/-- Outcome of the CI + bootstrap section (lines 245-348). `nameError`
models the Python `NameError` raised when line 245 reads `day_df` on a
run where line 183 never executed. -/
inductive CIOut where
  | nameError : String → CIOut
  | noComboGate : CIOut
  | comboNotFound : CIOut
  | noControlCI : CIOut
  | incompleteGroups : CIOut
  | computed : ℚ → ℚ → ℚ → ℚ → ℚ → BootOut → CIOut
  deriving DecidableEq

/-- Lines 245-348.  The gate at line 245 tests only the aliases "Combo"
and "A+B"; the four-alias probe runs after it.  When all four means are
present the section computes `CI = E_bliss / TGI_combo` with no guard on
`TGI_combo` (in NumPy a zero divisor produces `inf`/`nan`; the rational
embedding records the branch taken and the value of `TGI_combo`) and
then always runs the bootstrap. -/
def ciSection (day_df : Option (List Row)) (control drugA drugB : String)
    (draws : List Draw) : CIOut :=
  match day_df with
  | none => CIOut.nameError "day_df"
  | some ddf =>
    if "Combo" ∉ groupsOf ddf ∧ "A+B" ∉ groupsOf ddf then CIOut.noComboGate
    else
      match comboDetect ddf with
      | none => CIOut.comboNotFound
      | some combo =>
        if control ∉ groupsOf ddf then CIOut.noControlCI
        else if drugA ∉ groupsOf ddf ∨ drugB ∉ groupsOf ddf ∨
            combo ∉ groupsOf ddf then CIOut.incompleteGroups
        else
          let mCtrl := meanQ (groupVolumes ddf control)
          let mA := meanQ (groupVolumes ddf drugA)
          let mB := meanQ (groupVolumes ddf drugB)
          let mCombo := meanQ (groupVolumes ddf combo)
          let tA := 1 - mA / mCtrl
          let tB := 1 - mB / mCtrl
          let tC := 1 - mCombo / mCtrl
          let eBliss := tA + tB - tA * tB
          CIOut.computed tA tB tC eBliss (eBliss / tC)
            (bootSection (groupVolumes ddf control) (groupVolumes ddf drugA)
              (groupVolumes ddf drugB) (groupVolumes ddf combo) draws)

/-- Multiply every volume by a constant (used to state scale
invariance). -/
def scaleTable (c : ℚ) (tbl : List Row) : List Row :=
  tbl.map (fun r => { r with volume := c * r.volume })

/-- Rewrite every row's group label (used to state that the endpoint
selector never looks at the group column). -/
def relabelGroups (f : Row → String) (tbl : List Row) : List Row :=
  tbl.map (fun r => { r with group := f r })

/-- Spec-side: position i is the first crossing of threshold T in a
timeline — the row there has volume ≥ T and every earlier row is below
T. -/
def IsFirstCross (T : ℚ) (tl : List Row) (i : ℕ) : Prop :=
  (∃ r, tl[i]? = some r ∧ T ≤ r.volume) ∧
    ∀ j, j < i → ∀ r, tl[j]? = some r → r.volume < T

/-- Spec-side: d is subject m's candidate day — the day of the row
immediately preceding m's first crossing, which must sit at an index
greater than 0 of m's day-sorted timeline. -/
def SpecCandidate (tbl : List Row) (T : ℚ) (m : String) (d : ℚ) : Prop :=
  ∃ i, 0 < i ∧ IsFirstCross T (timeline tbl m) i ∧
    ∃ r, (timeline tbl m)[i - 1]? = some r ∧ d = r.day

/-- Resampled fractional combo TGI of one bootstrap iteration, used to
state which iterations the loop retains. -/
def resampledTgiCombo (vCtrl vCombo : List ℚ) (d : Draw) : ℚ :=
  1 - meanQ (resample vCombo d.comboIdx) / meanQ (resample vCtrl d.ctrlIdx)

/-- One subject that never reaches volume 500. -/
def c1NoCrossTbl : List Row :=
  [⟨"m1", 0, "Vehicle", 100⟩, ⟨"m1", 1, "Vehicle", 200⟩]

/-- One subject already at volume 600 on its first recorded day. -/
def c1FirstDayTbl : List Row :=
  [⟨"m1", 0, "Vehicle", 600⟩, ⟨"m1", 1, "Vehicle", 700⟩]

/-- Comparison-day table whose combo mean equals the control mean. -/
def c2DayTbl : List Row :=
  [⟨"m1", 0, "Vehicle", 400⟩, ⟨"m2", 0, "DrugA", 300⟩,
   ⟨"m3", 0, "DrugB", 250⟩, ⟨"m4", 0, "Combo", 400⟩]

/-- Comparison-day table whose only combo-like label is "DrugAB". -/
def c3DayTbl : List Row :=
  [⟨"m1", 0, "Vehicle", 400⟩, ⟨"m2", 0, "DrugA", 300⟩,
   ⟨"m3", 0, "DrugB", 250⟩, ⟨"m4", 0, "DrugAB", 150⟩]

/-- One subject crossing the threshold at its very first recorded day. -/
def c4CrossFirstTbl : List Row :=
  [⟨"m1", 0, "G", 600⟩, ⟨"m1", 1, "G", 700⟩]

/-- One subject never crossing the threshold. -/
def c4NoCrossTbl : List Row :=
  [⟨"m1", 0, "G", 100⟩, ⟨"m1", 1, "G", 200⟩]

/-- Comparison-day table with means 400 / 300 / 250 / 150. -/
def c7DayTbl : List Row :=
  [⟨"m1", 0, "Vehicle", 400⟩, ⟨"m2", 0, "DrugA", 300⟩,
   ⟨"m3", 0, "DrugB", 250⟩, ⟨"m4", 0, "Combo", 150⟩]

/-- Comparison-day table used to witness scale invariance. -/
def c9DayTbl : List Row :=
  [⟨"m1", 0, "Vehicle", 400⟩, ⟨"m2", 0, "DrugA", 300⟩,
   ⟨"m3", 0, "DrugB", 250⟩, ⟨"m4", 0, "Combo", 150⟩]

/-- One subject recorded under group G1 on day 0 and under group G2 on
day 1, where it crosses the threshold. -/
def c10CrossGroupsTbl : List Row :=
  [⟨"m1", 0, "G1", 100⟩, ⟨"m1", 1, "G2", 600⟩]

theorem minQ_eq_none_iff (l : List ℚ) : minQ l = none ↔ l = [] := by
  cases l with
  | nil => simp [minQ]
  | cons x xs =>
    simp only [minQ]
    cases minQ xs <;> simp

theorem minQ_eq_some_iff (l : List ℚ) : ∀ d : ℚ, minQ l = some d ↔ d ∈ l ∧ ∀ x ∈ l, d ≤ x := by
  induction l with
  | nil => intro d; simp [minQ]
  | cons x xs ih =>
    intro d
    simp only [minQ]
    cases h : minQ xs with
    | none =>
      have hx : xs = [] := (minQ_eq_none_iff xs).mp h
      subst hx
      constructor
      · intro he
        obtain rfl : x = d := Option.some.inj he
        refine ⟨List.mem_cons_self x [], ?_⟩
        intro z hz
        rcases List.mem_cons.mp hz with hz1 | hz2
        · exact le_of_eq hz1.symm
        · cases hz2
      · rintro ⟨hmem, -⟩
        exact congrArg some (List.mem_singleton.mp hmem).symm
    | some y =>
      have ihy := (ih y).mp h
      constructor
      · intro he
        have hd : min x y = d := Option.some.inj he
        subst hd
        refine ⟨?_, ?_⟩
        · rcases min_choice x y with hm | hm
          · rw [hm]; exact List.mem_cons_self x xs
          · rw [hm]; exact List.mem_cons_of_mem x ihy.1
        · intro z hz
          rcases List.mem_cons.mp hz with hz1 | hz2
          · rw [hz1]; exact min_le_left x y
          · exact le_trans (min_le_right x y) (ihy.2 z hz2)
      · rintro ⟨hmem, hle⟩
        have h1 : d ≤ min x y :=
          le_min (hle x (List.mem_cons_self x xs)) (hle y (List.mem_cons_of_mem x ihy.1))
        have h2 : min x y ≤ d := by
          rcases List.mem_cons.mp hmem with hd1 | hd2
          · rw [hd1]; exact min_le_left x y
          · exact le_trans (min_le_right x y) (ihy.2 d hd2)
        exact congrArg some (le_antisymm h2 h1)

theorem foldl_candidate_eq_filterMap (f : String → Option ℚ) (l : List String) (acc : List ℚ) :
    l.foldl
      (fun acc m => match f m with | some d => acc ++ [d] | none => acc) acc =
      acc ++ l.filterMap f := by
  induction l generalizing acc with
  | nil => simp
  | cons x xs ih =>
    cases h : f x with
    | none => simp [List.foldl_cons, h, ih, List.filterMap_cons]
    | some d => simp [List.foldl_cons, h, ih, List.filterMap_cons]

theorem targetDays_eq_filterMap (tbl : List Row) (T : ℚ) :
    targetDays tbl T =
      (subjects tbl).filterMap (fun m => candidateDay T (timeline tbl m)) := by
  simpa [targetDays] using
    foldl_candidate_eq_filterMap (fun m => candidateDay T (timeline tbl m)) (subjects tbl) []

theorem firstReachedIdx_eq_some_iff (T : ℚ) :
    ∀ (tl : List Row) (i : ℕ), firstReachedIdx T tl = some i ↔ IsFirstCross T tl i := by
  intro tl
  induction tl with
  | nil => intro i; simp [firstReachedIdx, IsFirstCross]
  | cons x xs ih =>
    intro i
    by_cases hx : T ≤ x.volume
    · simp only [firstReachedIdx, if_pos hx]
      cases i with
      | zero =>
        constructor
        · intro _
          exact ⟨⟨x, List.getElem?_cons_zero, hx⟩, by intro j hj r hr; omega⟩
        · intro _; rfl
      | succ k =>
        constructor
        · intro he
          exact absurd (Option.some.inj he) (by omega)
        · rintro ⟨-, hbelow⟩
          have hlt : x.volume < T := hbelow 0 (Nat.succ_pos k) x List.getElem?_cons_zero
          exact absurd hx (not_le.mpr hlt)
    · have hx2 : x.volume < T := not_le.mp hx
      simp only [firstReachedIdx, if_neg hx]
      cases i with
      | zero =>
        constructor
        · intro he
          rcases Option.map_eq_some'.mp he with ⟨k, -, hk⟩
          exact absurd hk (Nat.succ_ne_zero k)
        · rintro ⟨⟨r, hr, hTr⟩, -⟩
          rw [List.getElem?_cons_zero] at hr
          obtain rfl : x = r := Option.some.inj hr
          exact absurd hTr hx
      | succ k =>
        constructor
        · intro he
          rcases Option.map_eq_some'.mp he with ⟨k2, hk2, heq⟩
          have hk2e : firstReachedIdx T xs = some k := by
            have he2 : k2 = k := by omega
            rw [hk2, he2]
          have hIFC := (ih k).mp hk2e
          refine ⟨?_, ?_⟩
          · rw [List.getElem?_cons_succ]
            exact hIFC.1
          · intro j hj r hr
            cases j with
            | zero =>
              rw [List.getElem?_cons_zero] at hr
              obtain rfl : x = r := Option.some.inj hr
              exact hx2
            | succ j2 =>
              rw [List.getElem?_cons_succ] at hr
              exact hIFC.2 j2 (by omega) r hr
        · rintro ⟨hfirst, hbound⟩
          have hIFC : IsFirstCross T xs k := by
            constructor
            · simp only [List.getElem?_cons_succ] at hfirst
              exact hfirst
            · intro j hj r hr
              refine hbound (j + 1) (by omega) r ?_
              rw [List.getElem?_cons_succ]
              exact hr
          rw [(ih k).mpr hIFC]
          rfl

theorem candidateDay_eq_some_iff (T : ℚ) (tl : List Row) (d : ℚ) :
    candidateDay T tl = some d ↔
      ∃ i, 0 < i ∧ IsFirstCross T tl i ∧ ∃ r, tl[i - 1]? = some r ∧ d = r.day := by
  cases h : firstReachedIdx T tl with
  | none =>
    simp only [candidateDay, h]
    constructor
    · intro he; cases he
    · rintro ⟨i, -, hIFC, -⟩
      have h2 := (firstReachedIdx_eq_some_iff T tl i).mpr hIFC
      rw [h] at h2
      cases h2
  | some p =>
    cases p with
    | zero =>
      simp only [candidateDay, h]
      constructor
      · intro he; cases he
      · rintro ⟨i, hi, hIFC, -⟩
        have h2 := (firstReachedIdx_eq_some_iff T tl i).mpr hIFC
        rw [h] at h2
        have : (0 : ℕ) = i := Option.some.inj h2
        omega
    | succ p =>
      simp only [candidateDay, h]
      constructor
      · intro he
        rcases Option.map_eq_some'.mp he with ⟨r, hr, hd⟩
        exact ⟨p + 1, Nat.succ_pos p, (firstReachedIdx_eq_some_iff T tl (p + 1)).mp h,
          r, hr, hd.symm⟩
      · rintro ⟨i, hi, hIFC, r, hr, hd⟩
        have h2 := (firstReachedIdx_eq_some_iff T tl i).mpr hIFC
        rw [h] at h2
        obtain rfl : i = p + 1 := (Option.some.inj h2).symm
        have hr2 : tl[p]? = some r := hr
        rw [hr2]
        simp [hd]

theorem insertByDay_map (g : Row → Row) (hg : ∀ r, (g r).day = r.day) (r : Row) :
    ∀ l : List Row, insertByDay (g r) (l.map g) = (insertByDay r l).map g := by
  intro l
  induction l with
  | nil => rfl
  | cons x xs ih =>
    simp only [List.map_cons, insertByDay, hg]
    by_cases h : r.day ≤ x.day
    · rw [if_pos h, if_pos h, List.map_cons, List.map_cons]
    · rw [if_neg h, if_neg h, List.map_cons, ih]

theorem sortByDay_map (g : Row → Row) (hg : ∀ r, (g r).day = r.day) :
    ∀ l : List Row, sortByDay (l.map g) = (sortByDay l).map g := by
  intro l
  induction l with
  | nil => rfl
  | cons x xs ih =>
    simp only [List.map_cons, sortByDay, ih]
    exact insertByDay_map g hg x (sortByDay xs)

theorem firstReachedIdx_map (g : Row → Row) (hg : ∀ r, (g r).volume = r.volume) (T : ℚ) :
    ∀ l : List Row, firstReachedIdx T (l.map g) = firstReachedIdx T l := by
  intro l
  induction l with
  | nil => rfl
  | cons x xs ih =>
    simp only [List.map_cons, firstReachedIdx, hg, ih]

theorem candidateDay_map (g : Row → Row) (hgv : ∀ r, (g r).volume = r.volume)
    (hgd : ∀ r, (g r).day = r.day) (T : ℚ) (tl : List Row) :
    candidateDay T (tl.map g) = candidateDay T tl := by
  unfold candidateDay
  rw [firstReachedIdx_map g hgv]
  cases firstReachedIdx T tl with
  | none => rfl
  | some p =>
    cases p with
    | zero => rfl
    | succ p =>
      cases htl : tl[p]? <;> simp [List.getElem?_map, htl, hgd]

theorem timeline_relabel (f : Row → String) (tbl : List Row) (m : String) :
    timeline (relabelGroups f tbl) m =
      (timeline tbl m).map (fun r => { r with group := f r }) := by
  unfold timeline relabelGroups
  rw [List.filter_map]
  exact sortByDay_map (fun r => { r with group := f r }) (fun r => rfl) _

theorem subjects_relabel (f : Row → String) (tbl : List Row) :
    subjects (relabelGroups f tbl) = subjects tbl := by
  unfold subjects relabelGroups
  rw [List.map_map]
  rfl

theorem targetDays_relabel (f : Row → String) (tbl : List Row) (T : ℚ) :
    targetDays (relabelGroups f tbl) T = targetDays tbl T := by
  rw [targetDays_eq_filterMap, targetDays_eq_filterMap, subjects_relabel]
  have hfun : (fun m => candidateDay T (timeline (relabelGroups f tbl) m)) =
      (fun m => candidateDay T (timeline tbl m)) := by
    funext m
    rw [timeline_relabel]
    exact candidateDay_map (fun r => { r with group := f r }) (fun r => rfl) (fun r => rfl) T (timeline tbl m)
  rw [hfun]

theorem earliestDay_relabel (f : Row → String) (tbl : List Row) (T : ℚ) :
    earliestDay (relabelGroups f tbl) T = earliestDay tbl T := by
  unfold earliestDay
  rw [targetDays_relabel]

theorem groupsOf_scale (c : ℚ) (tbl : List Row) :
    groupsOf (scaleTable c tbl) = groupsOf tbl := by
  unfold groupsOf scaleTable
  rw [List.map_map]
  rfl

theorem groupVolumes_scale (c : ℚ) (tbl : List Row) (g : String) :
    groupVolumes (scaleTable c tbl) g = (groupVolumes tbl g).map (fun x => c * x) := by
  unfold groupVolumes scaleTable
  rw [List.filter_map, List.map_map, List.map_map]
  rfl

theorem meanQ_map_mul (c : ℚ) (xs : List ℚ) :
    meanQ (xs.map (fun x => c * x)) = c * meanQ xs := by
  have hsum : (xs.map (fun x => c * x)).sum = c * xs.sum := by
    induction xs with
    | nil => simp
    | cons y ys ih => simp [ih, mul_add]
  unfold meanQ
  rw [List.length_map, hsum, mul_div_assoc]

theorem tgiStage_scale (ddf : List Row) (control : String) (c : ℚ) (hc : 0 < c) :
    tgiStage (scaleTable c ddf) control = tgiStage ddf control := by
  unfold tgiStage
  simp only [groupsOf_scale, groupVolumes_scale, meanQ_map_mul]
  by_cases hmem : control ∈ groupsOf ddf
  · rw [if_neg (not_not_intro hmem), if_neg (not_not_intro hmem)]
    have hle : (c * meanQ (groupVolumes ddf control) ≤ 0) ↔
        (meanQ (groupVolumes ddf control) ≤ 0) := by
      constructor <;> intro h <;> nlinarith
    by_cases hm0 : meanQ (groupVolumes ddf control) ≤ 0
    · rw [if_pos (hle.mpr hm0), if_pos hm0]
    · rw [if_neg (fun hh => hm0 (hle.mp hh)), if_neg hm0]
      congr 1
      apply List.map_congr_left
      intro g hg
      have hcm : c * meanQ (groupVolumes ddf g) / (c * meanQ (groupVolumes ddf control)) =
          meanQ (groupVolumes ddf g) / meanQ (groupVolumes ddf control) :=
        mul_div_mul_left _ _ (ne_of_gt hc)
      rw [hcm]
  · rw [if_pos hmem, if_pos hmem]

theorem bootAppend_eq (vC vA vB vCo : List ℚ) (acc : List ℚ) (d : Draw) :
    bootAppend vC vA vB vCo acc d =
      match iterationCI vC vA vB vCo d with
      | some v => acc ++ [v]
      | none => acc := by
  simp only [bootAppend, iterationCI]
  split_ifs with h <;> rfl

theorem foldl_boot_eq_filterMap (vC vA vB vCo : List ℚ) :
    ∀ (draws : List Draw) (acc : List ℚ),
      draws.foldl (bootAppend vC vA vB vCo) acc =
        acc ++ draws.filterMap (iterationCI vC vA vB vCo) := by
  intro draws
  induction draws with
  | nil => intro acc; simp
  | cons d ds ih =>
    intro acc
    rw [List.foldl_cons, bootAppend_eq, List.filterMap_cons]
    cases h : iterationCI vC vA vB vCo d with
    | none => simp only [ih]
    | some v => simp only [ih, List.append_assoc, List.singleton_append]

theorem bootLoop_eq_filterMap (vC vA vB vCo : List ℚ) (draws : List Draw) :
    bootLoop vC vA vB vCo draws = draws.filterMap (iterationCI vC vA vB vCo) := by
  unfold bootLoop
  rw [foldl_boot_eq_filterMap]
  simp

theorem length_filterMap_iterationCI (vC vA vB vCo : List ℚ) (draws : List Draw) :
    (draws.filterMap (iterationCI vC vA vB vCo)).length =
      draws.countP (fun d => decide (0 < resampledTgiCombo vC vCo d)) := by
  induction draws with
  | nil => rfl
  | cons d ds ih =>
    rw [List.filterMap_cons, List.countP_cons]
    by_cases h : 0 < resampledTgiCombo vC vCo d
    · have hit : iterationCI vC vA vB vCo d =
          some ((1 - meanQ (resample vA d.aIdx) / meanQ (resample vC d.ctrlIdx) +
            (1 - meanQ (resample vB d.bIdx) / meanQ (resample vC d.ctrlIdx)) -
            (1 - meanQ (resample vA d.aIdx) / meanQ (resample vC d.ctrlIdx)) *
            (1 - meanQ (resample vB d.bIdx) / meanQ (resample vC d.ctrlIdx))) /
            resampledTgiCombo vC vCo d) := by
        simp only [iterationCI, resampledTgiCombo] at h ⊢
        rw [if_pos h]
      rw [hit]
      simp [ih, h]
    · have hit : iterationCI vC vA vB vCo d = none := by
        simp only [iterationCI, resampledTgiCombo] at h ⊢
        rw [if_neg h]
      rw [hit]
      simp [ih, h]

set_option allowUnsafeReducibility true
attribute [semireducible] Rat.add Rat.sub Rat.mul Rat.div Rat.inv

/-- C1: with the threshold at 500, a table with no crossing, a table whose
only crossing is at the subject's first recorded day, and the empty
filtered table all leave the endpoint section without a comparison day
(`day_df` is never assigned), and the CI section then evaluates to the
`NameError` outcome instead of a skip-with-report: the script crashes. -/
theorem c1_no_comparison_day_raises_name_error :
    (c1NoCrossTbl.all (fun r => decide (r.volume < 500))) = true ∧
    endpointSignal c1NoCrossTbl 500 = EndpointSignal.noReach ∧
    dayDf c1NoCrossTbl 500 = none ∧
    ciSection (dayDf c1NoCrossTbl 500) "Vehicle" "DrugA" "DrugB" [] =
      CIOut.nameError "day_df" ∧
    firstReachedIdx 500 (timeline c1FirstDayTbl "m1") = some 0 ∧
    endpointSignal c1FirstDayTbl 500 = EndpointSignal.noReach ∧
    ciSection (dayDf c1FirstDayTbl 500) "Vehicle" "DrugA" "DrugB" [] =
      CIOut.nameError "day_df" ∧
    endpointSignal [] 500 = EndpointSignal.noData ∧
    ciSection (dayDf [] 500) "Vehicle" "DrugA" "DrugB" [] =
      CIOut.nameError "day_df" := by
  decide

set_option maxRecDepth 100000 in
/-- C2: on a comparison-day table whose combo mean equals the control
mean (both 400), the CI section takes the `computed` path with
`TGI_combo = 0`, dividing `E_bliss` by zero with no guard (NumPy yields
`inf` there), and the bootstrap stage still runs over all 200
iterations; no distinct non-finite-CI report exists. -/
theorem c2_tgi_combo_zero_division_unguarded :
    groupMean c2DayTbl "Vehicle" = some 400 ∧
    groupMean c2DayTbl "Combo" = some 400 ∧
    ciSection (some c2DayTbl) "Vehicle" "DrugA" "DrugB"
        (List.replicate 200 ⟨[0], [0], [0], [0]⟩) =
      CIOut.computed (1 / 4) (3 / 8) 0 (17 / 32) (17 / 32 / 0)
        BootOut.insufficient := by
  decide

/-- C3 counterexample: a table whose only combo-like label is "DrugAB"
(which the four-alias probe would find) is nevertheless rejected by the
gate at line 245, so the CI stage is skipped rather than computed. -/
theorem c3_drugab_only_skips_ci_stage :
    comboDetect c3DayTbl = some "DrugAB" ∧
    ciSection (some c3DayTbl) "Vehicle" "DrugA" "DrugB" [] =
      CIOut.noComboGate := by
  decide

/-- C3 amended: the CI section emits its skip message exactly when
neither "Combo" nor "A+B" is among the group labels of the comparison
day; the last two aliases of the probe list never rescue the stage. -/
theorem c3_gate_requires_combo_or_a_plus_b (ddf : List Row)
    (control a b : String) (draws : List Draw) :
    ciSection (some ddf) control a b draws = CIOut.noComboGate ↔
      ("Combo" ∉ groupsOf ddf ∧ "A+B" ∉ groupsOf ddf) := by
  by_cases h : ("Combo" ∉ groupsOf ddf ∧ "A+B" ∉ groupsOf ddf)
  · refine iff_of_true ?_ h
    simp only [ciSection, if_pos h]
  · refine iff_of_false ?_ h
    intro hx
    simp only [ciSection] at hx
    rw [if_neg h] at hx
    split at hx
    · exact CIOut.noConfusion hx
    · split_ifs at hx

/-- C3 witness: the amended gate condition applied to the DrugAB-only
table. -/
theorem c3_gate_witness :
    ciSection (some c3DayTbl) "Vehicle" "DrugA" "DrugB" [] =
      CIOut.noComboGate :=
  (c3_gate_requires_combo_or_a_plus_b c3DayTbl "Vehicle" "DrugA" "DrugB" []).mpr
    (by decide)

/-- C4 counterexample: a table whose only crossing sits at the subject's
first recorded day and a table with no crossing at all produce the very
same endpoint signal (the single no-reach message of line 237); no
distinct no-candidate signal exists. -/
theorem c4_absence_signals_not_distinct :
    (c4CrossFirstTbl.any (fun r => decide (500 ≤ r.volume))) = true ∧
    firstReachedIdx 500 (timeline c4CrossFirstTbl "m1") = some 0 ∧
    (c4NoCrossTbl.any (fun r => decide (500 ≤ r.volume))) = false ∧
    endpointSignal c4CrossFirstTbl 500 = EndpointSignal.noReach ∧
    endpointSignal c4NoCrossTbl 500 = EndpointSignal.noReach := by
  decide

/-- C4 amended: on a nonempty filtered table the endpoint section emits
the one no-reach signal exactly when the candidate list is empty,
regardless of whether crossings never happen or happen only at
subjects' first days; the two absence conditions share one signal. -/
theorem c4_single_absence_signal (filtered : List Row) (T : ℚ) :
    endpointSignal filtered T = EndpointSignal.noReach ↔
      (filtered ≠ [] ∧ targetDays filtered T = []) := by
  unfold endpointSignal
  by_cases h : filtered = []
  · rw [if_pos h]
    exact iff_of_false (fun hx => EndpointSignal.noConfusion hx)
      (fun hx => hx.1 h)
  · rw [if_neg h]
    cases he : earliestDay filtered T with
    | some d =>
      refine iff_of_false (fun hx => EndpointSignal.noConfusion hx) ?_
      rintro ⟨-, htd⟩
      unfold earliestDay at he
      rw [htd] at he
      exact Option.noConfusion he
    | none =>
      refine iff_of_true rfl ⟨h, ?_⟩
      unfold earliestDay at he
      exact (minQ_eq_none_iff _).mp he

/-- C4 witness: the amended statement applied to the table that crosses
only at the first day. -/
theorem c4_single_absence_signal_witness :
    endpointSignal c4CrossFirstTbl 500 = EndpointSignal.noReach :=
  (c4_single_absence_signal c4CrossFirstTbl 500).mpr (by decide)

/-- C5: the comparison day is some d exactly when d is a candidate of
some subject (the day just before that subject's first crossing, the
crossing sitting at index greater than 0 of its day-sorted timeline)
and d is a lower bound of every subject's candidates; subjects whose
first crossing is at index 0 contribute nothing. -/
theorem c5_comparison_day_is_min_of_preceding_days (tbl : List Row) (T d : ℚ) :
    earliestDay tbl T = some d ↔
      (∃ m ∈ subjects tbl, SpecCandidate tbl T m d) ∧
      ∀ m ∈ subjects tbl, ∀ e, SpecCandidate tbl T m e → d ≤ e := by
  unfold earliestDay
  rw [minQ_eq_some_iff, targetDays_eq_filterMap]
  constructor
  · rintro ⟨hmem, hbound⟩
    constructor
    · rcases List.mem_filterMap.mp hmem with ⟨m, hm, hcand⟩
      exact ⟨m, hm, (candidateDay_eq_some_iff T (timeline tbl m) d).mp hcand⟩
    · intro m hm e hse
      have hcand := (candidateDay_eq_some_iff T (timeline tbl m) e).mpr hse
      exact hbound e (List.mem_filterMap.mpr ⟨m, hm, hcand⟩)
  · rintro ⟨⟨m, hm, hse⟩, hbound⟩
    constructor
    · exact List.mem_filterMap.mpr ⟨m, hm, (candidateDay_eq_some_iff _ _ _).mpr hse⟩
    · intro x hx
      rcases List.mem_filterMap.mp hx with ⟨m2, hm2, hcand2⟩
      exact hbound m2 hm2 x ((candidateDay_eq_some_iff _ _ _).mp hcand2)

/-- C6: the bootstrap loop retains exactly the iterations whose
resampled fractional combo TGI is positive (skipped ones are neither
counted nor zeroed), and the 2.5/97.5 percentile interval of the
retained values is reported precisely when strictly more than 10 values
were retained, the insufficient-samples report otherwise. -/
theorem c6_bootstrap_retention_and_reporting (vC vA vB vCo : List ℚ)
    (draws : List Draw) :
    bootLoop vC vA vB vCo draws = draws.filterMap (iterationCI vC vA vB vCo) ∧
    (bootLoop vC vA vB vCo draws).length =
      draws.countP (fun d => decide (0 < resampledTgiCombo vC vCo d)) ∧
    (bootSection vC vA vB vCo draws =
        BootOut.interval (percentileQ (bootLoop vC vA vB vCo draws) (5 / 2))
          (percentileQ (bootLoop vC vA vB vCo draws) (195 / 2)) ↔
      10 < (bootLoop vC vA vB vCo draws).length) ∧
    (bootSection vC vA vB vCo draws = BootOut.insufficient ↔
      (bootLoop vC vA vB vCo draws).length ≤ 10) := by
  refine ⟨bootLoop_eq_filterMap vC vA vB vCo draws, ?_, ?_, ?_⟩
  · rw [bootLoop_eq_filterMap]
    exact length_filterMap_iterationCI vC vA vB vCo draws
  · unfold bootSection
    by_cases h : 10 < (bootLoop vC vA vB vCo draws).length
    · rw [if_pos h]
      exact iff_of_true rfl h
    · rw [if_neg h]
      exact iff_of_false (fun hx => BootOut.noConfusion hx) h
  · unfold bootSection
    by_cases h : 10 < (bootLoop vC vA vB vCo draws).length
    · rw [if_pos h]
      exact iff_of_false (fun hx => BootOut.noConfusion hx) (by omega)
    · rw [if_neg h]
      exact iff_of_true rfl (by omega)

/-- C7: on comparison-day means 400 / 300 / 250 / 150 for control,
agent A, agent B and combo, the pipeline computes TGI_A = 25 percent,
TGI_B = 37.5 percent, Bliss expected TGI = 53.125 percent,
TGI_combo = 62.5 percent and CI = 0.85. -/
theorem c7_scenario_means_400_300_250_150 :
    tgiStage c7DayTbl "Vehicle" =
      TgiOut.tgiMap
        [("Vehicle", 0), ("DrugA", 25), ("DrugB", 75 / 2), ("Combo", 125 / 2)] ∧
    blissStage
        [("Vehicle", 0), ("DrugA", 25), ("DrugB", 75 / 2), ("Combo", 125 / 2)]
        "DrugA" "DrugB" = some (425 / 8) ∧
    (425 / 8 : ℚ) = 53.125 ∧
    ciSection (some c7DayTbl) "Vehicle" "DrugA" "DrugB" [] =
      CIOut.computed (1 / 4) (3 / 8) (5 / 8) (17 / 32) (17 / 20)
        BootOut.insufficient ∧
    (1 / 4 : ℚ) * 100 = 25 ∧ (3 / 8 : ℚ) * 100 = 37.5 ∧
    (5 / 8 : ℚ) * 100 = 62.5 ∧ (17 / 32 : ℚ) * 100 = 53.125 ∧
    (17 / 20 : ℚ) = 0.85 := by
  refine ⟨by decide, by decide, by norm_num, by decide, by norm_num,
    by norm_num, by norm_num, by norm_num, by norm_num⟩

/-- C8: the Bliss stage is symmetric in the two agent labels: whenever
both labels are present in the TGI map, swapping them leaves the
reported expected TGI unchanged. -/
theorem c8_bliss_symmetric (tgi : List (String × ℚ)) (a b : String)
    (ta tb : ℚ) (ha : tgi.lookup a = some ta) (hb : tgi.lookup b = some tb) :
    blissStage tgi a b = blissStage tgi b a := by
  unfold blissStage
  rw [ha, hb]
  exact congrArg some (by ring)

/-- C8 witness: symmetry at a concrete two-entry TGI map. -/
theorem c8_bliss_symmetric_witness :
    blissStage [("DrugA", 25), ("DrugB", 75 / 2)] "DrugA" "DrugB" =
      blissStage [("DrugA", 25), ("DrugB", 75 / 2)] "DrugB" "DrugA" :=
  c8_bliss_symmetric [("DrugA", 25), ("DrugB", 75 / 2)] "DrugA" "DrugB"
    25 (75 / 2) (by decide) (by decide)

/-- C9: multiplying every volume of the comparison-day table by a
positive constant leaves the whole TGI map unchanged when the control
mean is positive. -/
theorem c9_tgi_scale_invariant (ddf : List Row) (control : String)
    (c mc : ℚ) (hc : 0 < c) (_hm : groupMean ddf control = some mc)
    (_hpos : 0 < mc) :
    tgiStage (scaleTable c ddf) control = tgiStage ddf control :=
  tgiStage_scale ddf control c hc

/-- C9 witness: doubling all volumes of the 400 / 300 / 250 / 150 table
leaves its TGI map unchanged. -/
theorem c9_tgi_scale_invariant_witness :
    0 < (2 : ℚ) ∧ groupMean c9DayTbl "Vehicle" = some 400 ∧
    0 < (400 : ℚ) ∧
    tgiStage (scaleTable 2 c9DayTbl) "Vehicle" = tgiStage c9DayTbl "Vehicle" :=
  ⟨by decide, by decide, by decide,
    c9_tgi_scale_invariant c9DayTbl "Vehicle" 2 400 (by decide) (by decide)
      (by decide)⟩

/-- C10: the endpoint selector pools rows by subject id alone — its
result is invariant under any rewriting of the group labels — and on a
subject recorded under two groups the crossing contributed by the
second group's row selects as comparison day a day recorded only under
the first group. -/
theorem c10_selector_ignores_group :
    (∀ (tbl : List Row) (T : ℚ) (f : Row → String),
      earliestDay (relabelGroups f tbl) T = earliestDay tbl T) ∧
    earliestDay c10CrossGroupsTbl 500 = some 0 ∧
    ((c10CrossGroupsTbl.map (fun r => r.group)).dedup = ["G1", "G2"]) ∧
    ((c10CrossGroupsTbl.filter (fun r => decide (r.day = 0))).all
      (fun r => decide (r.group = "G1")) = true) ∧
    ((c10CrossGroupsTbl.filter (fun r => decide (500 ≤ r.volume))).all
      (fun r => decide (r.group = "G2")) = true) := by
  refine ⟨fun tbl T f => earliestDay_relabel f tbl T, ?_, ?_, ?_, ?_⟩ <;> decide
